import Mathlib

/-!
Verification of the disaggregation engine of this repository against its
natural-language specification.  Probabilities are embedded as rationals
(exact arithmetic); numpy arrays become lists; Python dicts become
association lists; fallible code returns Except/Option.
-/

namespace OQ

/-! ## Result Reducer (DisaggregationCalculator.agg_result) -/

/-- Merge rule of DisaggregationCalculator.agg_result:
given an existing accumulator value and an incoming partial value for the
same key, the merged value is 1 - (1 - existing) * (1 - incoming).
A key absent from the accumulator is treated as existing = 0
(acc.get of key with default 0 in the source). -/
def mergeVal (existing incoming : ℚ) : ℚ :=
  1 - (1 - existing) * (1 - incoming)

/-- Reduction of a stream of partial results sharing one key, in arrival
order, starting from the absent-key default 0, as agg_result performs it
one task result at a time. -/
def reducePartials (l : List ℚ) : ℚ :=
  l.foldl mergeVal 0

lemma mergeVal_comm (a b : ℚ) : mergeVal a b = mergeVal b a := by
  unfold mergeVal; ring

lemma mergeVal_assoc (a b c : ℚ) :
    mergeVal (mergeVal a b) c = mergeVal a (mergeVal b c) := by
  unfold mergeVal; ring

lemma mergeVal_zero_left (a : ℚ) : mergeVal 0 a = a := by
  unfold mergeVal; ring

lemma foldl_mergeVal_perm {l₁ l₂ : List ℚ} (hp : l₁.Perm l₂) (b : ℚ) :
    l₁.foldl mergeVal b = l₂.foldl mergeVal b := by
  refine hp.foldl_eq' (fun x _ y _ z => ?_) b
  unfold mergeVal; ring

lemma foldl_mergeVal_append (b : ℚ) (l₁ l₂ : List ℚ) :
    (l₁ ++ l₂).foldl mergeVal b =
      mergeVal (l₁.foldl mergeVal b) (l₂.foldl mergeVal 0) := by
  induction l₂ using List.reverseRecOn with
  | nil =>
      simp [mergeVal]
  | append_singleton xs x ih =>
      rw [← List.append_assoc, List.foldl_append, List.foldl_append,
        List.foldl_append] at *
      simp only [List.foldl_cons, List.foldl_nil] at *
      rw [ih, mergeVal_assoc]

/-- C1: the Result Reducer merges a partial result into the accumulator by
merged = 1 - (1 - existing) * (1 - incoming), with an absent key treated as
existing = 0; the combination is commutative and associative, hence the
reduced value of a multiset of partials is independent of arrival order
(any permutation) and of grouping (reducing two sub-batches separately and
merging agrees with reducing the concatenation); partials 0.1 and 0.2
reduce to 0.28. -/
theorem agg_result_merge_order_independent :
    (∀ a b : ℚ, mergeVal a b = mergeVal b a) ∧
    (∀ a b c : ℚ, mergeVal (mergeVal a b) c = mergeVal a (mergeVal b c)) ∧
    (∀ l₁ l₂ : List ℚ, l₁.Perm l₂ → reducePartials l₁ = reducePartials l₂) ∧
    (∀ l₁ l₂ : List ℚ,
      reducePartials (l₁ ++ l₂) =
        mergeVal (reducePartials l₁) (reducePartials l₂)) ∧
    reducePartials [1/10, 2/10] = 28/100 := by
  refine ⟨mergeVal_comm, mergeVal_assoc, ?_, ?_, ?_⟩
  · intro l₁ l₂ hp
    exact foldl_mergeVal_perm hp 0
  · intro l₁ l₂
    exact foldl_mergeVal_append 0 l₁ l₂
  · norm_num [reducePartials, mergeVal]

/-- Witness for C1: the order-independence part applied at the concrete
permutation [0.1, 0.2] ~ [0.2, 0.1], together with the concrete value. -/
theorem agg_result_merge_order_independent_witness :
    reducePartials [1/10, 2/10] = reducePartials [2/10, 1/10] ∧
    reducePartials [1/10, 2/10] = 28/100 :=
  ⟨agg_result_merge_order_independent.2.2.1 [1/10, 2/10] [2/10, 1/10]
      (List.Perm.swap _ _ _),
    agg_result_merge_order_independent.2.2.2.2⟩

/-! ## SeismicSource construction (nhe/source/base.py) -/

/-- Embedding of a Python float as used by the rupture_mesh_spacing guard:
either NaN or an exact rational value. -/
inductive PyFloat where
  | nan : PyFloat
  | val : ℚ → PyFloat
deriving DecidableEq, Repr

/-- Python float comparison a > b: every comparison involving NaN is false. -/
def PyFloat.gt : PyFloat → PyFloat → Bool
  | .val a, .val b => decide (a > b)
  | _, _ => false

/-- Fields stored by SeismicSource.init, kept polymorphic in the opaque
identifier and magnitude-frequency-distribution payloads, which the
constructor stores without inspecting them. -/
structure SeismicSource (ι μ : Type) where
  source_id : ι
  name : String
  tectonic_region_type : String
  mfd : μ
  rupture_mesh_spacing : PyFloat
deriving DecidableEq, Repr

/-- Constructor SeismicSource.init from nhe/source/base.py.  The validity
test const.TRT.is_valid lives outside this repository and is passed in as
the predicate is_valid.  The guard on the spacing is the source's
`not rupture_mesh_spacing > 0`, under Python float comparison. -/
def SeismicSource.init {ι μ : Type} (is_valid : String → Bool) (source_id : ι)
    (name : String) (tectonic_region_type : String) (mfd : μ)
    (rupture_mesh_spacing : PyFloat) : Except String (SeismicSource ι μ) :=
  if ¬ is_valid tectonic_region_type then
    .error ("unknown tectonic region type " ++ tectonic_region_type)
  else if ¬ rupture_mesh_spacing.gt (.val 0) then
    .error "rupture mesh spacing must be positive"
  else
    .ok ⟨source_id, name, tectonic_region_type, mfd, rupture_mesh_spacing⟩

/-- C10: SeismicSource construction raises ValueError on an invalid
tectonic-region-type; raises ValueError whenever the spacing does not
satisfy spacing > 0 under float comparison — in particular NaN, zero and
negative spacings all fail, since the guard is `not spacing > 0`; and
otherwise stores source_id, name, tectonic_region_type, mfd and
rupture_mesh_spacing unchanged on the instance. -/
theorem seismic_source_init_validates {ι μ : Type} (is_valid : String → Bool)
    (sid : ι) (nm trt : String) (mfd : μ) (sp : PyFloat) :
    (is_valid trt = false →
      SeismicSource.init is_valid sid nm trt mfd sp =
        .error ("unknown tectonic region type " ++ trt)) ∧
    (is_valid trt = true → sp.gt (.val 0) = false →
      SeismicSource.init is_valid sid nm trt mfd sp =
        .error "rupture mesh spacing must be positive") ∧
    (is_valid trt = true → sp.gt (.val 0) = true →
      SeismicSource.init is_valid sid nm trt mfd sp =
        .ok ⟨sid, nm, trt, mfd, sp⟩) ∧
    (sp = .nan ∨ sp = .val 0 ∨ (∃ q : ℚ, q < 0 ∧ sp = .val q) →
      sp.gt (.val 0) = false) := by
  refine ⟨?_, ?_, ?_, ?_⟩
  · intro h
    simp [SeismicSource.init, h]
  · intro h₁ h₂
    simp [SeismicSource.init, h₁, h₂]
  · intro h₁ h₂
    simp [SeismicSource.init, h₁, h₂]
  · rintro (rfl | rfl | ⟨q, hq, rfl⟩)
    · rfl
    · simp [PyFloat.gt]
    · simp [PyFloat.gt, le_of_lt hq]

/-- Witness for C10: with the validity predicate accepting exactly the
string "Active Shallow Crust", a valid construction succeeds with the
fields stored unchanged, and NaN, zero and negative spacings each fail. -/
theorem seismic_source_init_validates_witness :
    (SeismicSource.init (fun t => t = "Active Shallow Crust") (1 : ℕ)
        "src" "Active Shallow Crust" (0 : ℕ) (.val 5) =
      .ok ⟨1, "src", "Active Shallow Crust", 0, .val 5⟩) ∧
    (SeismicSource.init (fun t => t = "Active Shallow Crust") (1 : ℕ)
        "src" "Bogus" (0 : ℕ) (.val 5) =
      .error ("unknown tectonic region type " ++ "Bogus")) ∧
    (SeismicSource.init (fun t => t = "Active Shallow Crust") (1 : ℕ)
        "src" "Active Shallow Crust" (0 : ℕ) .nan =
      .error "rupture mesh spacing must be positive") ∧
    (SeismicSource.init (fun t => t = "Active Shallow Crust") (1 : ℕ)
        "src" "Active Shallow Crust" (0 : ℕ) (.val 0) =
      .error "rupture mesh spacing must be positive") ∧
    (SeismicSource.init (fun t => t = "Active Shallow Crust") (1 : ℕ)
        "src" "Active Shallow Crust" (0 : ℕ) (.val (-2)) =
      .error "rupture mesh spacing must be positive") :=
  ⟨(seismic_source_init_validates _ _ _ _ _ _).2.2.1 (by decide) (by decide),
    (seismic_source_init_validates _ _ _ _ _ _).1 (by decide),
    (seismic_source_init_validates _ _ _ _ _ _).2.1 (by decide)
      ((seismic_source_init_validates (fun t => t = "Active Shallow Crust")
        (1 : ℕ) "src" "Active Shallow Crust" (0 : ℕ) .nan).2.2.2
        (Or.inl rfl)),
    (seismic_source_init_validates _ _ _ _ _ _).2.1 (by decide)
      ((seismic_source_init_validates (fun t => t = "Active Shallow Crust")
        (1 : ℕ) "src" "Active Shallow Crust" (0 : ℕ) (.val 0)).2.2.2
        (Or.inr (Or.inl rfl))),
    (seismic_source_init_validates _ _ _ _ _ _).2.1 (by decide)
      ((seismic_source_init_validates (fun t => t = "Active Shallow Crust")
        (1 : ℕ) "src" "Active Shallow Crust" (0 : ℕ) (.val (-2))).2.2.2
        (Or.inr (Or.inr ⟨-2, by norm_num, rfl⟩)))⟩

/-! ## Calculator construction (openquake/engine/calculators/base.py) -/

/-- Class-wide mutable state of SourceCollector: the shared
POINT_SOURCE_WEIGHT attribute, a process-wide default seen by every
instance. -/
structure SourceCollectorState where
  POINT_SOURCE_WEIGHT : ℚ
deriving DecidableEq, Repr

/-- Configuration values read from openquake.cfg by Calculator.init. -/
structure EngineConfig where
  concurrent_tasks : ℤ
  max_input_weight : ℚ
  max_output_weight : ℚ
  point_source_weight : ℚ
deriving DecidableEq, Repr

/-- Instance fields set by Calculator.init on self. -/
structure Calculator where
  job : ℕ
  num_tasks : Option ℕ
  task_args : List ℕ
  concurrent_tasks : ℤ
  max_input_weight : ℚ
  max_output_weight : ℚ
deriving DecidableEq, Repr

/-- Constructor Calculator.init from engine/calculators/base.py: stores the
job and the configuration values on the instance, and assigns
SourceCollector.POINT_SOURCE_WEIGHT — the class-wide state — from the
configuration.  Modelled as an explicit state-passing function on the
shared SourceCollectorState. -/
def Calculator.init (cfg : EngineConfig) (job : ℕ)
    (g : SourceCollectorState) : Calculator × SourceCollectorState :=
  (⟨job, none, [], cfg.concurrent_tasks, cfg.max_input_weight,
      cfg.max_output_weight⟩,
    ⟨cfg.point_source_weight⟩)

/-- Counterexample to C9: constructing a calculator does mutate the
process-wide SourceCollector.POINT_SOURCE_WEIGHT — with the shared state
holding 7 and the configuration holding 3, construction changes the shared
state, and the constructed instance carries no weighting field whose value
reflects point_source_weight. -/
theorem calculator_init_mutates_global_counterexample :
    (Calculator.init ⟨4, 1, 1, 3⟩ 0 ⟨7⟩).2 ≠ ⟨7⟩ ∧
    (Calculator.init ⟨4, 1, 1, 3⟩ 0 ⟨7⟩).2.POINT_SOURCE_WEIGHT = 3 := by
  constructor
  · intro h
    simpa [Calculator.init] using congrArg SourceCollectorState.POINT_SOURCE_WEIGHT h
  · rfl

/-- C9 amended: constructing a calculator sets the class-wide
SourceCollector.POINT_SOURCE_WEIGHT — a process-wide mutable default shared
by all instances — to the configured point_source_weight; the weighting
value is not threaded through the instance: the constructed instance is
unchanged when only point_source_weight varies in the configuration. -/
theorem calculator_init_weight_is_global (cfg : EngineConfig) (job : ℕ)
    (g : SourceCollectorState) (w : ℚ) :
    (Calculator.init cfg job g).2.POINT_SOURCE_WEIGHT =
      cfg.point_source_weight ∧
    (Calculator.init { cfg with point_source_weight := w } job g).1 =
      (Calculator.init cfg job g).1 := by
  exact ⟨rfl, rfl⟩

/-! ## Bin-edge construction (full_disaggregation) -/

/-- Magnitude bin edges from full_disaggregation:
mag_bin_width * arange(floor(min_mag / width), ceil(max_mag / width) + 1),
where arange(a, b) enumerates the integers a, a+1, ..., b-1. -/
def magEdges (w min_mag max_mag : ℚ) : List ℚ :=
  (List.range (Int.ceil (max_mag / w) + 1 - Int.floor (min_mag / w)).toNat).map
    fun k : ℕ => w * ((Int.floor (min_mag / w) : ℚ) + (k : ℚ))

/-- Epsilon bin edges from full_disaggregation:
linspace(-truncation_level, truncation_level, num_epsilon_bins + 1). -/
def epsEdges (tl : ℚ) (n : ℕ) : List ℚ :=
  (List.range (n + 1)).map fun k : ℕ => -tl + 2 * tl * (k : ℚ) / (n : ℚ)

/-- The five per-site edge sequences stored in self.bin_edges. -/
structure Edges5 where
  mag : List ℚ
  dist : List ℚ
  lon : List ℚ
  lat : List ℚ
  eps : List ℚ
deriving DecidableEq, Repr

/-- Bounding box of a site, as stored in bb_dict: Python falsiness of the
box (no sources within integration distance) plus its bins_edges method —
the latter lives outside this repository and is kept opaque. -/
structure BBox where
  isEmpty : Bool
  bins_edges : ℚ → ℚ → List ℚ × List ℚ × List ℚ

/-- Per-site bin-edge mapping built by full_disaggregation: every site
whose bounding box is falsy is logged and skipped (no entry); every other
site gets the shared magnitude and epsilon edges plus its own distance,
longitude and latitude edges from bb.bins_edges. -/
def buildBinEdges (sids : List ℕ) (bb_dict : ℕ → BBox)
    (mag_edges eps_edges : List ℚ) (dist_w coord_w : ℚ) :
    List (ℕ × Edges5) :=
  sids.filterMap fun sid =>
    if (bb_dict sid).isEmpty then none
    else
      let de := (bb_dict sid).bins_edges dist_w coord_w
      some (sid, ⟨mag_edges, de.1, de.2.1, de.2.2, eps_edges⟩)

lemma floor_le_ceil_of_le {w mn mx : ℚ} (hw : 0 < w) (hle : mn ≤ mx) :
    Int.floor (mn / w) ≤ Int.ceil (mx / w) := by
  have h₁ : (Int.floor (mn / w) : ℚ) ≤ mn / w := Int.floor_le _
  have h₂ : mx / w ≤ (Int.ceil (mx / w) : ℚ) := Int.le_ceil _
  have h₃ : mn / w ≤ mx / w := by
    exact div_le_div_of_nonneg_right hle hw.le
  exact_mod_cast h₁.trans (h₃.trans h₂)

lemma mem_magEdges_iff {w mn mx : ℚ} (hw : 0 < w) (hle : mn ≤ mx) (x : ℚ) :
    x ∈ magEdges w mn mx ↔
      ∃ j : ℤ, Int.floor (mn / w) ≤ j ∧ j ≤ Int.ceil (mx / w) ∧
        x = w * (j : ℚ) := by
  have hfc := floor_le_ceil_of_le hw hle
  constructor
  · intro hx
    obtain ⟨k, hk, hfk⟩ := List.mem_map.mp hx
    have hk' : (k : ℤ) < Int.ceil (mx / w) + 1 - Int.floor (mn / w) := by
      have := List.mem_range.mp hk
      omega
    refine ⟨Int.floor (mn / w) + (k : ℤ), by omega, by omega, ?_⟩
    rw [← hfk]; push_cast; ring
  · rintro ⟨j, hj₁, hj₂, rfl⟩
    refine List.mem_map.mpr ⟨(j - Int.floor (mn / w)).toNat, ?_, ?_⟩
    · exact List.mem_range.mpr (by omega)
    · have hj : ((j - Int.floor (mn / w)).toNat : ℤ) =
        j - Int.floor (mn / w) := by omega
      have hq : (((j - Int.floor (mn / w)).toNat : ℕ) : ℚ) =
          (j : ℚ) - (Int.floor (mn / w) : ℚ) := by
        exact_mod_cast hj
      rw [hq]; ring

/-- C3: for positive bin width w and source magnitudes spanning
[min_mag, max_mag], the magnitude edges are exactly the values w * j for
the integers j from floor(min_mag / w) to ceil(max_mag / w) inclusive, in
strictly increasing order; they bracket min_mag and max_mag; and every
site entry of the per-site bin-edge mapping carries this same shared
magnitude edge sequence. -/
theorem mag_edges_exact_increasing_bracket (w mn mx : ℚ) (hw : 0 < w)
    (hle : mn ≤ mx) :
    (∀ x : ℚ, x ∈ magEdges w mn mx ↔
      ∃ j : ℤ, Int.floor (mn / w) ≤ j ∧ j ≤ Int.ceil (mx / w) ∧
        x = w * (j : ℚ)) ∧
    (magEdges w mn mx).Chain' (· < ·) ∧
    w * (Int.floor (mn / w) : ℚ) ≤ mn ∧
    mx ≤ w * (Int.ceil (mx / w) : ℚ) ∧
    (∀ (sids : List ℕ) (bb : ℕ → BBox) (epsE : List ℚ) (dw cw : ℚ)
      (sid : ℕ) (e : Edges5),
      (sid, e) ∈ buildBinEdges sids bb (magEdges w mn mx) epsE dw cw →
        e.mag = magEdges w mn mx) := by
  refine ⟨mem_magEdges_iff hw hle, ?_, ?_, ?_, ?_⟩
  · refine List.Pairwise.chain' ?_
    refine (List.pairwise_map).mpr ?_
    refine List.Pairwise.imp ?_ (List.pairwise_lt_range _)
    intro a b hab
    have hq : (a : ℚ) < (b : ℚ) := by exact_mod_cast hab
    have h := add_lt_add_left hq ((Int.floor (mn / w) : ℚ))
    exact mul_lt_mul_of_pos_left h hw
  · have h := Int.floor_le (mn / w)
    calc w * (Int.floor (mn / w) : ℚ) ≤ w * (mn / w) :=
          mul_le_mul_of_nonneg_left h (le_of_lt hw)
      _ = mn := by field_simp
  · have h := Int.le_ceil (mx / w)
    calc mx = w * (mx / w) := by field_simp
      _ ≤ w * (Int.ceil (mx / w) : ℚ) :=
          mul_le_mul_of_nonneg_left h (le_of_lt hw)
  · intro sids bb epsE dw cw sid e he
    obtain ⟨s, _hs, hsome⟩ := List.mem_filterMap.mp he
    by_cases hbb : (bb s).isEmpty
    · simp [buildBinEdges, hbb] at hsome
    · simp only [Bool.not_eq_true] at hbb
      simp only [hbb, Bool.false_eq_true, if_false] at hsome
      have hmag := congrArg (fun p : ℕ × Edges5 => p.2.mag)
        (Option.some.inj hsome)
      simpa using hmag.symm

/-- Witness for C3: width 1/2, magnitudes spanning [5.1, 6.9] — the edges
run from 5.0 to 7.0 in steps of 0.5 and bracket both extremes. -/
theorem mag_edges_exact_increasing_bracket_witness :
    ((1 : ℚ)/2 * (Int.floor ((51 : ℚ)/10 / (1/2)) : ℚ) ≤ 51/10) ∧
    ((69 : ℚ)/10 ≤ 1/2 * (Int.ceil ((69 : ℚ)/10 / (1/2)) : ℚ)) ∧
    (magEdges (1/2) (51/10) (69/10)).Chain' (· < ·) :=
  ⟨(mag_edges_exact_increasing_bracket (1/2) (51/10) (69/10) (by norm_num)
      (by norm_num)).2.2.1,
    (mag_edges_exact_increasing_bracket (1/2) (51/10) (69/10) (by norm_num)
      (by norm_num)).2.2.2.1,
    (mag_edges_exact_increasing_bracket (1/2) (51/10) (69/10) (by norm_num)
      (by norm_num)).2.1⟩

/-! ## Bin-data collection (compute_disagg and _disagg_result) -/

/-- Association-list lookup, the embedding of Python dict indexing. -/
def alookup {κ α : Type} [DecidableEq κ] : List (κ × α) → κ → Option α
  | [], _ => none
  | (k, v) :: rest, q => if k = q then some v else alookup rest q

/-- Bins passed to disagg._arrange_data_in_bins for one site and one
quartet: the six parallel arrays mags, dists, lons, lats, pnes (the U x E
probability-of-non-exceedance slice) and tectonic-region indices. -/
structure BinsT where
  mags : List ℚ
  dists : List ℚ
  lons : List ℚ
  lats : List ℚ
  pnes : List (List ℚ)
  trts : List ℕ
deriving DecidableEq, Repr

/-- Fingerprint used as cache key by _disagg_result: the sum of the
probability array bins[4]. -/
def pnesum (b : BinsT) : ℚ :=
  (b.pnes.map (fun row => row.sum)).sum

/-- Edges tuple as wanted by _arrange_data_in_bins: the site's five edge
sequences extended with the tectonic-region-type names. -/
abbrev EdgesT := Edges5 × List String

/-- Embedding of _disagg_result.  The external collaborators
disagg._arrange_data_in_bins and disagg.pmf_map are combined into the
function argument arrange, which produces the array of PMF-view values.
The Boolean component records whether arranging was performed (the
arranging monitor ticked); the cache is returned as updated, since the
Python dict is mutated in place. -/
def disaggResult {α : Type} (arrange : BinsT → EdgesT → α) (bins : BinsT)
    (edges : EdgesT) (iml_disagg_given : Bool) (cache : List (ℚ × α)) :
    α × List (ℚ × α) × Bool :=
  if iml_disagg_given then
    match alookup cache (pnesum bins) with
    | some r => (r, cache, false)
    | none =>
      let r := arrange bins edges
      (r, (pnesum bins, r) :: cache, true)
  else
    (arrange bins edges, cache, true)

/-- C4: with an explicit intensity level configured, _disagg_result
memoizes by the sum of the probability array: after any first invocation,
a second invocation sharing the cache whose probability array has the same
sum returns the first invocation's result without arranging and leaves the
cache untouched, even when bins and edges differ otherwise (fingerprint
collisions are accepted); a first invocation on a cold fingerprint does
arrange and stores the result; with no explicit level configured, every
invocation arranges afresh and the cache is never consulted nor changed. -/
theorem disagg_result_memoizes_by_pnesum {α : Type}
    (arrange : BinsT → EdgesT → α) (b₁ b₂ : BinsT) (e₁ e₂ : EdgesT)
    (cache : List (ℚ × α)) (hsum : pnesum b₂ = pnesum b₁) :
    (disaggResult arrange b₂ e₂ true
        (disaggResult arrange b₁ e₁ true cache).2.1 =
      ((disaggResult arrange b₁ e₁ true cache).1,
        (disaggResult arrange b₁ e₁ true cache).2.1, false)) ∧
    (alookup cache (pnesum b₁) = none →
      disaggResult arrange b₁ e₁ true cache =
        (arrange b₁ e₁, (pnesum b₁, arrange b₁ e₁) :: cache, true)) ∧
    (∀ c : List (ℚ × α), disaggResult arrange b₁ e₁ false c =
      (arrange b₁ e₁, c, true)) := by
  refine ⟨?_, ?_, ?_⟩
  · cases hq : alookup cache (pnesum b₁) with
    | some r =>
        simp [disaggResult, hsum, hq]
    | none =>
        simp [disaggResult, hsum, hq, alookup]
  · intro hq
    simp [disaggResult, hq]
  · intro c
    simp [disaggResult]

/-- Witness for C4: a concrete arrange distinguishing the two bin sets;
the bin sets differ (different mags) but share the fingerprint 5, so the
second call returns the result arranged from the first bin set. -/
theorem disagg_result_memoizes_by_pnesum_witness :
    (disaggResult (fun b _ => b.mags) ⟨[9], [], [], [], [[5]], []⟩
        ((⟨[], [], [], [], []⟩ : Edges5), [])  true
        (disaggResult (fun b _ => b.mags) ⟨[3], [], [], [], [[2, 3]], []⟩
          ((⟨[], [], [], [], []⟩ : Edges5), []) true []).2.1 =
      ((disaggResult (fun b _ => b.mags) ⟨[3], [], [], [], [[2, 3]], []⟩
          ((⟨[], [], [], [], []⟩ : Edges5), []) true []).1,
        (disaggResult (fun b _ => b.mags) ⟨[3], [], [], [], [[2, 3]], []⟩
          ((⟨[], [], [], [], []⟩ : Edges5), []) true []).2.1, false)) ∧
    (disaggResult (fun b _ => b.mags) ⟨[3], [], [], [], [[2, 3]], []⟩
        ((⟨[], [], [], [], []⟩ : Edges5), []) true [] =
      ([3], [(5, [3])], true)) :=
  ⟨(disagg_result_memoizes_by_pnesum (fun b _ => b.mags)
      ⟨[3], [], [], [], [[2, 3]], []⟩ ⟨[9], [], [], [], [[5]], []⟩
      ((⟨[], [], [], [], []⟩ : Edges5), [])
      ((⟨[], [], [], [], []⟩ : Edges5), []) [] (by norm_num [pnesum])).1,
    by
      have h := (disagg_result_memoizes_by_pnesum (fun b _ => b.mags)
        ⟨[3], [], [], [], [[2, 3]], []⟩ ⟨[9], [], [], [], [[5]], []⟩
        ((⟨[], [], [], [], []⟩ : Edges5), [])
        ((⟨[], [], [], [], []⟩ : Edges5), []) [] (by norm_num [pnesum])).2.1
        rfl
      rw [h]
      norm_num [pnesum]⟩

/-- Raw bins data returned by the external collaborator
disagg.collect_bins_data, which is deterministic in the task arguments:
mags and trts are shared over the U contributing ruptures; dists, lons and
lats map a site index to its column; eps maps a quartet index and a site
index to the U x E probability-of-non-exceedance slice (the
transpose(1, 0, 2, 3) indexing of the eps array). -/
structure BinsData where
  mags : List ℚ
  trts : List ℕ
  dists : ℕ → List ℚ
  lons : ℕ → List ℚ
  lats : ℕ → List ℚ
  eps : ℕ → ℕ → List (List ℚ)

/-- One quartet (poe, gsim, imt, rlzi); the poe is None when disaggregating
at a directly configured intensity level. -/
structure Quartet where
  poe : Option ℚ
  gsim : String
  imt : String
  rlzi : ℕ
deriving DecidableEq, Repr

/-- The job parameters consumed by compute_disagg itself: the optional
mapping imt -> fixed intensity level (iml_disagg; the empty mapping is the
Python-falsy absent configuration). -/
structure OqParamD where
  iml_disagg : List (String × ℚ)
deriving DecidableEq, Repr

/-- Composite result key (sid, rlz id, poe, imt, iml, trt_names). -/
abbrev ResultKey := ℕ × ℕ × Option ℚ × String × ℚ × List String

/-- One quartet iteration of the per-site loop of compute_disagg: pick the
intensity level (from iml_disagg when configured, from the interpolated
levels otherwise), slice the six bins arrays for the site, call
_disagg_result with the per-site cache, and record the keyed entry. -/
def disaggStep {α : Type} (arrange : BinsT → EdgesT → α) (bd : BinsData)
    (quartets : List Quartet) (imls : List (List ℚ))
    (trt_names : List String) (oq : OqParamD) (sid i : ℕ) (edges : EdgesT)
    (st : List (ResultKey × α) × List (ℚ × α) × ℕ) (q : ℕ) :
    List (ResultKey × α) × List (ℚ × α) × ℕ :=
  let qu := quartets.getD q ⟨none, "", "", 0⟩
  let iml : ℚ :=
    if oq.iml_disagg.isEmpty then (imls.getD q []).getD i 0
    else (alookup oq.iml_disagg qu.imt).getD 0
  let bins : BinsT :=
    ⟨bd.mags, bd.dists i, bd.lons i, bd.lats i, bd.eps q i, bd.trts⟩
  let r := disaggResult arrange bins edges (!oq.iml_disagg.isEmpty) st.2.1
  (st.1 ++ [((sid, qu.rlzi, qu.poe, qu.imt, iml, trt_names), r.1)],
    r.2.1, st.2.2 + (if r.2.2 then 1 else 0))

/-- Per-site inner loop of compute_disagg: iterate the quartets in order,
threading the per-site cache (a fresh empty dict per site) and counting
arranging operations; each quartet contributes one keyed entry. -/
def disaggSite {α : Type} (arrange : BinsT → EdgesT → α) (bd : BinsData)
    (quartets : List Quartet) (imls : List (List ℚ))
    (trt_names : List String) (oq : OqParamD) (sid i : ℕ)
    (edges : EdgesT) : List (ResultKey × α) × ℕ :=
  let fin := (List.range quartets.length).foldl
    (disaggStep arrange bd quartets imls trt_names oq sid i edges)
    ([], [], 0)
  (fin.1, fin.2.2)

/-- One site iteration of compute_disagg: look the site id up in
bin_edges — a missing id (the KeyError branch) skips the site — and
otherwise run the per-site loop and append its entries and its count of
arranging operations. -/
def siteStep {α : Type} (arrange : BinsT → EdgesT → α) (sitecol : List ℕ)
    (bd : BinsData) (quartets : List Quartet) (imls : List (List ℚ))
    (trt_names : List String) (bin_edges : List (ℕ × Edges5))
    (oq : OqParamD) (acc : List (ResultKey × α) × ℕ) (i : ℕ) :
    List (ResultKey × α) × ℕ :=
  match alookup bin_edges (sitecol.getD i 0) with
  | none => acc
  | some e5 =>
    (acc.1 ++ (disaggSite arrange bd quartets imls trt_names oq
        (sitecol.getD i 0) i (e5, trt_names)).1,
      acc.2 + (disaggSite arrange bd quartets imls trt_names oq
        (sitecol.getD i 0) i (e5, trt_names)).2)

/-- Embedding of compute_disagg.  The bins data bd stands for the output
of disagg.collect_bins_data on the task arguments; arrange stands for
_arrange_data_in_bins composed with the pmf_map views; the monitor is
threaded as an explicit counter of arranging operations, the only state
the task touches beyond its arguments.  A site whose id is missing from
bin_edges raises KeyError in the source and is skipped by the except
branch; when all sources were filtered out (bd.mags empty) the empty
mapping is returned at once. -/
def computeDisagg {α : Type} (arrange : BinsT → EdgesT → α)
    (sitecol : List ℕ) (bd : BinsData) (quartets : List Quartet)
    (imls : List (List ℚ)) (trt_names : List String)
    (bin_edges : List (ℕ × Edges5)) (oq : OqParamD) (mon : ℕ) :
    List (ResultKey × α) × ℕ :=
  if bd.mags.isEmpty then ([], mon)
  else
    (List.range sitecol.length).foldl
      (siteStep arrange sitecol bd quartets imls trt_names bin_edges oq)
      ([], mon)

lemma foldl_inv {β σ : Type} (P : σ → Prop) (f : σ → β → σ) (l : List β)
    (s : σ) (h0 : P s) (hstep : ∀ t b, P t → P (f t b)) :
    P (l.foldl f s) := by
  induction l generalizing s with
  | nil => exact h0
  | cons b l ih => exact ih (f s b) (hstep s b h0)

lemma foldl_rel {β σ : Type} (R : σ → σ → Prop) (f : σ → β → σ)
    (l : List β) (s t : σ) (h0 : R s t)
    (hstep : ∀ u v b, R u v → R (f u b) (f v b)) :
    R (l.foldl f s) (l.foldl f t) := by
  induction l generalizing s t with
  | nil => exact h0
  | cons b l ih => exact ih (f s b) (f t b) (hstep s t b h0)

lemma disaggSite_keys {α : Type} (arrange : BinsT → EdgesT → α)
    (bd : BinsData) (quartets : List Quartet) (imls : List (List ℚ))
    (trt_names : List String) (oq : OqParamD) (sid i : ℕ) (edges : EdgesT) :
    ∀ kv ∈ (disaggSite arrange bd quartets imls trt_names oq sid i
      edges).1, (kv : ResultKey × α).1.1 = sid := by
  have h := foldl_inv
    (fun st : List (ResultKey × α) × List (ℚ × α) × ℕ =>
      ∀ kv ∈ st.1, (kv : ResultKey × α).1.1 = sid)
    (disaggStep arrange bd quartets imls trt_names oq sid i edges)
    (List.range quartets.length) ([], [], 0) (by intro kv h; cases h)
    (by
      intro t q ht kv hkv
      rcases List.mem_append.mp hkv with h₁ | h₂
      · exact ht kv h₁
      · rcases List.mem_singleton.mp h₂ with rfl
        rfl)
  intro kv hkv
  exact h kv hkv

lemma alookup_mem {κ α : Type} [DecidableEq κ] (l : List (κ × α)) (k : κ)
    (v : α) (h : alookup l k = some v) : (k, v) ∈ l := by
  induction l with
  | nil => cases h
  | cons p rest ih =>
      obtain ⟨k', v'⟩ := p
      by_cases hk : k' = k
      · subst hk
        simp [alookup] at h
        simp [h]
      · simp [alookup, hk] at h
        exact List.mem_cons_of_mem _ (ih h)

/-- C5: a site whose bounding box is empty (no sources within the maximum
integration distance) is omitted from the per-site bin-edge mapping built
by full_disaggregation, and compute_disagg run against that mapping yields
no key for the site — the site is skipped, with no error raised (the
embedding is total). -/
theorem far_site_skipped {α : Type} (arrange : BinsT → EdgesT → α)
    (sids : List ℕ) (bb_dict : ℕ → BBox) (magE epsE : List ℚ)
    (dw cw : ℚ) (sid : ℕ) (hbb : (bb_dict sid).isEmpty = true)
    (sitecol : List ℕ) (bd : BinsData) (quartets : List Quartet)
    (imls : List (List ℚ)) (trt_names : List String) (oq : OqParamD)
    (mon : ℕ) :
    alookup (buildBinEdges sids bb_dict magE epsE dw cw) sid = none ∧
    ∀ key val,
      ((key, val) : ResultKey × α) ∈ (computeDisagg arrange sitecol bd
        quartets imls trt_names (buildBinEdges sids bb_dict magE epsE dw cw)
        oq mon).1 →
      key.1 ≠ sid := by
  have hnone : alookup (buildBinEdges sids bb_dict magE epsE dw cw) sid =
      none := by
    cases hq : alookup (buildBinEdges sids bb_dict magE epsE dw cw) sid with
    | none => rfl
    | some e =>
        exfalso
        have hmem := alookup_mem _ _ _ hq
        obtain ⟨s, _hs, hsome⟩ := List.mem_filterMap.mp hmem
        by_cases hb : (bb_dict s).isEmpty
        · simp [hb] at hsome
        · simp only [Bool.not_eq_true] at hb
          simp only [hb, Bool.false_eq_true, if_false] at hsome
          have := congrArg (fun p : ℕ × Edges5 => p.1) (Option.some.inj hsome)
          simp only at this
          rw [this] at hb
          rw [hbb] at hb
          cases hb
  refine ⟨hnone, ?_⟩
  intro key val hkv
  unfold computeDisagg at hkv
  by_cases hm : bd.mags.isEmpty
  · simp [hm] at hkv
  · simp only [hm, Bool.false_eq_true, if_false] at hkv
    have hinv := foldl_inv
      (fun acc : List (ResultKey × α) × ℕ =>
        ∀ kv ∈ acc.1, (kv : ResultKey × α).1.1 ≠ sid)
      (siteStep arrange sitecol bd quartets imls trt_names
        (buildBinEdges sids bb_dict magE epsE dw cw) oq)
      (List.range sitecol.length) ([], mon) (by intro kv h; cases h)
      (by
        intro t i ht kv hkv'
        unfold siteStep at hkv'
        cases hq : alookup (buildBinEdges sids bb_dict magE epsE dw cw)
          (sitecol.getD i 0) with
        | none =>
            rw [hq] at hkv'
            exact ht kv hkv'
        | some e5 =>
            rw [hq] at hkv'
            rcases List.mem_append.mp hkv' with h₁ | h₂
            · exact ht kv h₁
            · have hkey := disaggSite_keys arrange bd quartets imls
                trt_names oq (sitecol.getD i 0) i (e5, trt_names) kv h₂
              rw [hkey]
              intro hcontra
              rw [hcontra] at hq
              rw [hnone] at hq
              cases hq)
    exact hinv (key, val) hkv

/-- Witness for C5: one site 0 with an empty bounding box — the bin-edge
mapping is empty and compute_disagg yields the empty result on it. -/
theorem far_site_skipped_witness :
    alookup (buildBinEdges [0] (fun _ => ⟨true, fun _ _ => ([], [], [])⟩)
      [] [] 1 1) 0 = none ∧
    ∀ key val,
      ((key, val) : ResultKey × List ℚ) ∈ (computeDisagg (fun _ _ => [])
        [0] ⟨[5], [0], fun _ => [1], fun _ => [2], fun _ => [3],
          fun _ _ => [[1]]⟩ [⟨some (1/2), "g", "PGA", 0⟩] [[1]] ["TRT"]
        (buildBinEdges [0] (fun _ => ⟨true, fun _ _ => ([], [], [])⟩) [] []
          1 1) ⟨[]⟩ 0).1 →
      key.1 ≠ 0 :=
  far_site_skipped (fun _ _ => []) [0]
    (fun _ => ⟨true, fun _ _ => ([], [], [])⟩) [] [] 1 1 0 rfl
    [0] ⟨[5], [0], fun _ => [1], fun _ => [2], fun _ => [3],
      fun _ _ => [[1]]⟩ [⟨some (1/2), "g", "PGA", 0⟩] [[1]] ["TRT"] ⟨[]⟩ 0

/-- C6: when every source of the work block has been filtered out — the
collected bins data have an empty magnitudes array — compute_disagg
returns the empty mapping rather than raising, so the affected site and
block combinations are simply absent from the partial result. -/
theorem compute_disagg_all_filtered_empty {α : Type}
    (arrange : BinsT → EdgesT → α) (sitecol : List ℕ) (bd : BinsData)
    (quartets : List Quartet) (imls : List (List ℚ))
    (trt_names : List String) (bin_edges : List (ℕ × Edges5))
    (oq : OqParamD) (mon : ℕ) (hmags : bd.mags = []) :
    computeDisagg arrange sitecol bd quartets imls trt_names bin_edges oq
      mon = ([], mon) := by
  simp [computeDisagg, hmags]

/-- Witness for C6: a block whose bins data came out empty produces the
empty mapping on a concrete site collection. -/
theorem compute_disagg_all_filtered_empty_witness :
    computeDisagg (fun _ _ => ([] : List ℚ)) [0, 1]
      ⟨[], [], fun _ => [], fun _ => [], fun _ => [], fun _ _ => []⟩
      [⟨some (1/10), "g", "PGA", 0⟩] [[1]] ["TRT"]
      [(0, ⟨[1], [1], [1], [1], [1]⟩)] ⟨[]⟩ 3 = ([], 3) :=
  compute_disagg_all_filtered_empty _ _ _ _ _ _ _ _ _ rfl

/-- C7: compute_disagg is a deterministic pure function of its explicit
arguments: its result mapping does not depend on the pre-existing state of
the only external state it touches (the performance monitor, threaded here
explicitly), and re-running it on the same arguments and state yields the
identical output, so it may run on any worker, in any order, any number of
times. -/
theorem compute_disagg_pure {α : Type} (arrange : BinsT → EdgesT → α)
    (sitecol : List ℕ) (bd : BinsData) (quartets : List Quartet)
    (imls : List (List ℚ)) (trt_names : List String)
    (bin_edges : List (ℕ × Edges5)) (oq : OqParamD) (mon₁ mon₂ : ℕ) :
    (computeDisagg arrange sitecol bd quartets imls trt_names bin_edges oq
        mon₁).1 =
      (computeDisagg arrange sitecol bd quartets imls trt_names bin_edges
        oq mon₂).1 ∧
    computeDisagg arrange sitecol bd quartets imls trt_names bin_edges oq
        mon₁ =
      computeDisagg arrange sitecol bd quartets imls trt_names bin_edges oq
        mon₁ := by
  refine ⟨?_, rfl⟩
  unfold computeDisagg
  by_cases hm : bd.mags.isEmpty
  · simp [hm]
  · simp only [hm, Bool.false_eq_true, if_false]
    exact foldl_rel
      (fun u v : List (ResultKey × α) × ℕ => u.1 = v.1)
      (siteStep arrange sitecol bd quartets imls trt_names bin_edges oq)
      (List.range sitecol.length) ([], mon₁) ([], mon₂) rfl
      (by
        intro u v i huv
        unfold siteStep
        cases hq : alookup bin_edges (sitecol.getD i 0) with
        | none => exact huv
        | some e5 =>
            exact congrArg
              (fun l => l ++ (disaggSite arrange bd quartets imls trt_names
                oq (sitecol.getD i 0) i (e5, trt_names)).1) huv)

/-! ## PoE feasibility check (full_disaggregation) -/

/-- Payload of the POE_TOO_BIG ValueError raised by full_disaggregation:
the message interpolates, in order, the offending threshold, the source
model ordinal and name, the maximum achievable probability, the
realization ordinal and the intensity-measure-type. -/
structure PoeTooBig where
  poe : ℚ
  sm_id : ℕ
  sm_name : String
  max_poe : ℚ
  rlzi : ℕ
  imt : String
deriving DecidableEq, Repr

/-- Per-site hazard curves for one realization: the dict imt -> array of
probabilities of exceedance, as returned by get_curves. -/
abbrev CurveByImt := List (String × List ℚ)

/-- Maximum achievable probability of exceedance for one realization and
intensity-measure-type, as the max_poe array of full_disaggregation is
populated: starting from zero, folded with max over every entry of every
site's curve dictionary for that realization. -/
def maxPoe (curves : List (List (ℕ × CurveByImt))) (rlzi : ℕ)
    (imt : String) : ℚ :=
  curves.foldl
    (fun m site_curve =>
      site_curve.foldl
        (fun m' entry =>
          if entry.1 = rlzi then
            ((alookup entry.2 imt).getD []).foldl max m'
          else m')
        m)
    0

/-- Innermost loop of the feasibility check: scan the intensity measure
types in order and raise POE_TOO_BIG at the first imt whose maximum
achievable probability is below the requested threshold. -/
def checkImts (poe : ℚ) (rlzi : ℕ) (maxp : ℕ → String → ℚ) (sm_id : ℕ)
    (sm_name : String) : List String → Option PoeTooBig
  | [] => none
  | imt :: rest =>
    if poe > maxp rlzi imt then
      some ⟨poe, sm_id, sm_name, maxp rlzi imt, rlzi, imt⟩
    else checkImts poe rlzi maxp sm_id sm_name rest

/-- Middle loop of the feasibility check: scan the realizations of the
source model in order. -/
def checkRlzs (poe : ℚ) (maxp : ℕ → String → ℚ) (sm_id : ℕ)
    (sm_name : String) (imts : List String) : List ℕ → Option PoeTooBig
  | [] => none
  | rlzi :: rest =>
    match checkImts poe rlzi maxp sm_id sm_name imts with
    | some e => some e
    | none => checkRlzs poe maxp sm_id sm_name imts rest

/-- Outermost loop of the feasibility check of full_disaggregation: scan
the requested disaggregation thresholds in order. -/
def checkPoes (maxp : ℕ → String → ℚ) (sm_id : ℕ) (sm_name : String)
    (imts : List String) (rlzs : List ℕ) : List ℚ → Option PoeTooBig
  | [] => none
  | poe :: rest =>
    match checkRlzs poe maxp sm_id sm_name imts rlzs with
    | some e => some e
    | none => checkPoes maxp sm_id sm_name imts rlzs rest

/-- A source model as full_disaggregation sees it: ordinal, name, and the
per-group lists of split sources surviving the distance filter. -/
structure SModel where
  ordinal : ℕ
  name : String
  groups : List (List ℕ)
deriving DecidableEq, Repr

/-- Task-argument construction and feasibility gating of
full_disaggregation: models are processed in order; each model runs the
POE_TOO_BIG check before contributing the task arguments of its nonempty
source groups; the first failed check raises, which aborts the run before
parallel.Starmap is invoked — an error therefore means no task is ever
dispatched, while an ok value carries the dispatched task arguments. -/
def fullDisagg (poes_disagg : List ℚ) (rlzs_by_smodel : ℕ → List ℕ)
    (imts : List String) (maxp : ℕ → String → ℚ) :
    List SModel → Except PoeTooBig (List (ℕ × List ℕ))
  | [] => .ok []
  | m :: rest =>
    match checkPoes maxp m.ordinal m.name imts (rlzs_by_smodel m.ordinal)
      poes_disagg with
    | some e => .error e
    | none =>
      match fullDisagg poes_disagg rlzs_by_smodel imts maxp rest with
      | .error e => .error e
      | .ok ts =>
        .ok ((m.groups.filterMap fun g =>
          if g.isEmpty then none else some (m.ordinal, g)) ++ ts)

lemma checkImts_none_iff (poe : ℚ) (rlzi : ℕ) (maxp : ℕ → String → ℚ)
    (sm_id : ℕ) (sm_name : String) (imts : List String) :
    checkImts poe rlzi maxp sm_id sm_name imts = none ↔
      ∀ imt ∈ imts, poe ≤ maxp rlzi imt := by
  induction imts with
  | nil => simp [checkImts]
  | cons imt rest ih =>
      by_cases h : poe > maxp rlzi imt
      · simp only [checkImts, if_pos h]
        constructor
        · intro hc; cases hc
        · intro hall
          exact absurd (hall imt (List.mem_cons_self _ _)) (not_le.mpr h)
      · simp only [checkImts, if_neg h]
        rw [ih]
        constructor
        · intro hall imt' hi
          rcases List.mem_cons.mp hi with rfl | hi'
          · exact not_lt.mp h
          · exact hall imt' hi'
        · intro hall imt' hi
          exact hall imt' (List.mem_cons_of_mem _ hi)

lemma checkImts_some_spec (poe : ℚ) (rlzi : ℕ) (maxp : ℕ → String → ℚ)
    (sm_id : ℕ) (sm_name : String) (imts : List String) (e : PoeTooBig)
    (h : checkImts poe rlzi maxp sm_id sm_name imts = some e) :
    e.imt ∈ imts ∧ e.poe = poe ∧ e.rlzi = rlzi ∧ e.sm_id = sm_id ∧
      e.sm_name = sm_name ∧ e.max_poe = maxp rlzi e.imt ∧
      e.poe > e.max_poe := by
  induction imts with
  | nil => cases h
  | cons imt rest ih =>
      by_cases hgt : poe > maxp rlzi imt
      · simp only [checkImts, if_pos hgt, Option.some_inj] at h
        subst h
        exact ⟨List.mem_cons_self _ _, rfl, rfl, rfl, rfl, rfl, hgt⟩
      · simp only [checkImts, if_neg hgt] at h
        obtain ⟨h₁, h₂, h₃, h₄, h₅, h₆, h₇⟩ := ih h
        exact ⟨List.mem_cons_of_mem _ h₁, h₂, h₃, h₄, h₅, h₆, h₇⟩

lemma checkRlzs_none_iff (poe : ℚ) (maxp : ℕ → String → ℚ) (sm_id : ℕ)
    (sm_name : String) (imts : List String) (rlzs : List ℕ) :
    checkRlzs poe maxp sm_id sm_name imts rlzs = none ↔
      ∀ rlzi ∈ rlzs, ∀ imt ∈ imts, poe ≤ maxp rlzi imt := by
  induction rlzs with
  | nil => simp [checkRlzs]
  | cons rlzi rest ih =>
      cases hc : checkImts poe rlzi maxp sm_id sm_name imts with
      | some e =>
          simp only [checkRlzs, hc]
          constructor
          · intro h; cases h
          · intro h
            have := (checkImts_none_iff poe rlzi maxp sm_id sm_name
              imts).mpr (h rlzi (List.mem_cons_self _ _))
            rw [this] at hc
            cases hc
      | none =>
          simp only [checkRlzs, hc, ih]
          have hall := (checkImts_none_iff poe rlzi maxp sm_id sm_name
            imts).mp hc
          constructor
          · intro h rlzi' hr imt hi
            rcases List.mem_cons.mp hr with rfl | hr'
            · exact hall imt hi
            · exact h rlzi' hr' imt hi
          · intro h rlzi' hr imt hi
            exact h rlzi' (List.mem_cons_of_mem _ hr) imt hi

lemma checkRlzs_some_spec (poe : ℚ) (maxp : ℕ → String → ℚ) (sm_id : ℕ)
    (sm_name : String) (imts : List String) (rlzs : List ℕ) (e : PoeTooBig)
    (h : checkRlzs poe maxp sm_id sm_name imts rlzs = some e) :
    e.rlzi ∈ rlzs ∧ e.imt ∈ imts ∧ e.poe = poe ∧ e.sm_id = sm_id ∧
      e.sm_name = sm_name ∧ e.max_poe = maxp e.rlzi e.imt ∧
      e.poe > e.max_poe := by
  induction rlzs with
  | nil => cases h
  | cons rlzi rest ih =>
      cases hc : checkImts poe rlzi maxp sm_id sm_name imts with
      | some e' =>
          simp only [checkRlzs, hc, Option.some_inj] at h
          rw [h] at hc
          obtain ⟨h₁, h₂, h₃, h₄, h₅, h₆, h₇⟩ :=
            checkImts_some_spec poe rlzi maxp sm_id sm_name imts e hc
          exact ⟨h₃ ▸ List.mem_cons_self _ _, h₁, h₂, h₄, h₅,
            h₃ ▸ h₆, h₇⟩
      | none =>
          simp only [checkRlzs, hc] at h
          obtain ⟨h₁, h₂, h₃, h₄, h₅, h₆, h₇⟩ := ih h
          exact ⟨List.mem_cons_of_mem _ h₁, h₂, h₃, h₄, h₅, h₆, h₇⟩

lemma checkPoes_none_iff (maxp : ℕ → String → ℚ) (sm_id : ℕ)
    (sm_name : String) (imts : List String) (rlzs : List ℕ)
    (poes : List ℚ) :
    checkPoes maxp sm_id sm_name imts rlzs poes = none ↔
      ∀ poe ∈ poes, ∀ rlzi ∈ rlzs, ∀ imt ∈ imts, poe ≤ maxp rlzi imt := by
  induction poes with
  | nil => simp [checkPoes]
  | cons poe rest ih =>
      cases hc : checkRlzs poe maxp sm_id sm_name imts rlzs with
      | some e =>
          simp only [checkPoes, hc]
          constructor
          · intro h; cases h
          · intro h
            have := (checkRlzs_none_iff poe maxp sm_id sm_name imts
              rlzs).mpr (h poe (List.mem_cons_self _ _))
            rw [this] at hc
            cases hc
      | none =>
          simp only [checkPoes, hc, ih]
          have hall := (checkRlzs_none_iff poe maxp sm_id sm_name imts
            rlzs).mp hc
          constructor
          · intro h poe' hp rlzi hr imt hi
            rcases List.mem_cons.mp hp with rfl | hp'
            · exact hall rlzi hr imt hi
            · exact h poe' hp' rlzi hr imt hi
          · intro h poe' hp rlzi hr imt hi
            exact h poe' (List.mem_cons_of_mem _ hp) rlzi hr imt hi

lemma checkPoes_some_spec (maxp : ℕ → String → ℚ) (sm_id : ℕ)
    (sm_name : String) (imts : List String) (rlzs : List ℕ)
    (poes : List ℚ) (e : PoeTooBig)
    (h : checkPoes maxp sm_id sm_name imts rlzs poes = some e) :
    e.poe ∈ poes ∧ e.rlzi ∈ rlzs ∧ e.imt ∈ imts ∧ e.sm_id = sm_id ∧
      e.sm_name = sm_name ∧ e.max_poe = maxp e.rlzi e.imt ∧
      e.poe > e.max_poe := by
  induction poes with
  | nil => cases h
  | cons poe rest ih =>
      cases hc : checkRlzs poe maxp sm_id sm_name imts rlzs with
      | some e' =>
          simp only [checkPoes, hc, Option.some_inj] at h
          rw [h] at hc
          obtain ⟨h₁, h₂, h₃, h₄, h₅, h₆, h₇⟩ :=
            checkRlzs_some_spec poe maxp sm_id sm_name imts rlzs e hc
          exact ⟨h₃ ▸ List.mem_cons_self _ _, h₁, h₂, h₄, h₅, h₆, h₇⟩
      | none =>
          simp only [checkPoes, hc] at h
          obtain ⟨h₁, h₂, h₃, h₄, h₅, h₆, h₇⟩ := ih h
          exact ⟨List.mem_cons_of_mem _ h₁, h₂, h₃, h₄, h₅, h₆, h₇⟩

lemma fullDisagg_error_iff (poes : List ℚ) (rlzs_by : ℕ → List ℕ)
    (imts : List String) (maxp : ℕ → String → ℚ) (models : List SModel) :
    (∃ e, fullDisagg poes rlzs_by imts maxp models = .error e) ↔
      ∃ m ∈ models, ∃ poe ∈ poes, ∃ rlzi ∈ rlzs_by m.ordinal, ∃ imt ∈ imts,
        poe > maxp rlzi imt := by
  induction models with
  | nil =>
      constructor
      · rintro ⟨e, he⟩; cases he
      · rintro ⟨m, hm, -⟩; cases hm
  | cons m rest ih =>
      cases hc : checkPoes maxp m.ordinal m.name imts (rlzs_by m.ordinal)
        poes with
      | some e =>
          simp only [fullDisagg, hc]
          constructor
          · intro
            obtain ⟨h₁, h₂, h₃, -, -, h₆, h₇⟩ :=
              checkPoes_some_spec maxp m.ordinal m.name imts
                (rlzs_by m.ordinal) poes e hc
            exact ⟨m, List.mem_cons_self _ _, e.poe, h₁, e.rlzi, h₂,
              e.imt, h₃, h₆ ▸ h₇⟩
          · intro
            exact ⟨e, rfl⟩
      | none =>
          have hall := (checkPoes_none_iff maxp m.ordinal m.name imts
            (rlzs_by m.ordinal) poes).mp hc
          cases hrest : fullDisagg poes rlzs_by imts maxp rest with
          | error e' =>
              simp only [fullDisagg, hc, hrest]
              constructor
              · intro
                obtain ⟨m', hm', rest_spec⟩ := ih.mp ⟨e', hrest⟩
                exact ⟨m', List.mem_cons_of_mem _ hm', rest_spec⟩
              · intro
                exact ⟨e', rfl⟩
          | ok ts =>
              simp only [fullDisagg, hc, hrest]
              constructor
              · rintro ⟨e, he⟩; cases he
              · rintro ⟨m', hm', poe, hp, rlzi, hr, imt, hi, hgt⟩
                rcases List.mem_cons.mp hm' with rfl | hm''
                · exact absurd (hall poe hp rlzi hr imt hi) (not_le.mpr hgt)
                · obtain ⟨e, he⟩ := ih.mpr ⟨m', hm'', poe, hp, rlzi, hr,
                    imt, hi, hgt⟩
                  rw [he] at hrest
                  cases hrest

lemma fullDisagg_error_spec (poes : List ℚ) (rlzs_by : ℕ → List ℕ)
    (imts : List String) (maxp : ℕ → String → ℚ) (models : List SModel)
    (e : PoeTooBig)
    (h : fullDisagg poes rlzs_by imts maxp models = .error e) :
    e.poe ∈ poes ∧ e.rlzi ∈ rlzs_by e.sm_id ∧ e.imt ∈ imts ∧
      e.max_poe = maxp e.rlzi e.imt ∧ e.poe > e.max_poe ∧
      ∃ m ∈ models, m.ordinal = e.sm_id ∧ m.name = e.sm_name := by
  induction models with
  | nil => cases h
  | cons m rest ih =>
      cases hc : checkPoes maxp m.ordinal m.name imts (rlzs_by m.ordinal)
        poes with
      | some e' =>
          simp only [fullDisagg, hc, Except.error.injEq] at h
          rw [h] at hc
          obtain ⟨h₁, h₂, h₃, h₄, h₅, h₆, h₇⟩ :=
            checkPoes_some_spec maxp m.ordinal m.name imts
              (rlzs_by m.ordinal) poes e hc
          exact ⟨h₁, h₄ ▸ h₂, h₃, h₆, h₇,
            m, List.mem_cons_self _ _, h₄.symm, h₅.symm⟩
      | none =>
          cases hrest : fullDisagg poes rlzs_by imts maxp rest with
          | error e' =>
              simp only [fullDisagg, hc, hrest, Except.error.injEq] at h
              rw [h] at hrest
              obtain ⟨h₁, h₂, h₃, h₄, h₅, m', hm', h₆⟩ := ih hrest
              exact ⟨h₁, h₂, h₃, h₄, h₅, m', List.mem_cons_of_mem _ hm',
                h₆⟩
          | ok ts =>
              simp only [fullDisagg, hc, hrest] at h
              cases h

/-- C2: a requested disaggregation threshold strictly above the maximum
achievable probability of exceedance — the maximum over all sites' hazard
curves, as accumulated into the max_poe array — for some realization and
intensity-measure-type of some source model makes full_disaggregation
raise the POE_TOO_BIG ValueError, and an error means parallel.Starmap is
never reached, so no task is dispatched; the raised error identifies the
threshold, the source model ordinal and name, the maximum achievable
value, the realization and the intensity-measure-type; and when every
requested threshold is at most the maximum for every realization and
intensity-measure-type of every model, the check passes and the task
arguments are dispatched. -/
theorem full_disagg_feasibility_gate
    (curves : List (List (ℕ × CurveByImt))) (poes : List ℚ)
    (rlzs_by : ℕ → List ℕ) (imts : List String) (models : List SModel) :
    ((∃ m ∈ models, ∃ poe ∈ poes, ∃ rlzi ∈ rlzs_by m.ordinal,
        ∃ imt ∈ imts, poe > maxPoe curves rlzi imt) ↔
      ∃ e, fullDisagg poes rlzs_by imts (maxPoe curves) models =
        .error e) ∧
    (∀ e, fullDisagg poes rlzs_by imts (maxPoe curves) models = .error e →
      e.poe ∈ poes ∧ e.rlzi ∈ rlzs_by e.sm_id ∧ e.imt ∈ imts ∧
        e.max_poe = maxPoe curves e.rlzi e.imt ∧ e.poe > e.max_poe ∧
        ∃ m ∈ models, m.ordinal = e.sm_id ∧ m.name = e.sm_name) ∧
    ((∀ m ∈ models, ∀ poe ∈ poes, ∀ rlzi ∈ rlzs_by m.ordinal,
        ∀ imt ∈ imts, poe ≤ maxPoe curves rlzi imt) →
      ∃ ts, fullDisagg poes rlzs_by imts (maxPoe curves) models =
        .ok ts) := by
  refine ⟨(fullDisagg_error_iff poes rlzs_by imts (maxPoe curves)
    models).symm, ?_, ?_⟩
  · intro e he
    exact fullDisagg_error_spec poes rlzs_by imts (maxPoe curves) models
      e he
  · intro hall
    cases hfd : fullDisagg poes rlzs_by imts (maxPoe curves) models with
    | error e =>
        exfalso
        obtain ⟨m, hm, poe, hp, rlzi, hr, imt, hi, hgt⟩ :=
          (fullDisagg_error_iff poes rlzs_by imts (maxPoe curves)
            models).mp ⟨e, hfd⟩
        exact absurd (hall m hm poe hp rlzi hr imt hi) (not_le.mpr hgt)
    | ok ts => exact ⟨ts, rfl⟩

/-- Witness for C2: with one site whose curve peaks at 0.3 for rlz 0 and
PGA, the requested threshold 0.5 raises an error carrying threshold 0.5,
source model 0 named sm, maximum 0.3, rlz 0 and PGA; with the feasible
threshold 0.1 the run dispatches its task arguments. -/
theorem full_disagg_feasibility_gate_witness :
    ((⟨1/2, 0, "sm", 3/10, 0, "PGA"⟩ : PoeTooBig).poe ∈ [(1 : ℚ)/2] ∧
      (⟨1/2, 0, "sm", 3/10, 0, "PGA"⟩ : PoeTooBig).rlzi ∈
        (fun _ : ℕ => [0]) (⟨1/2, 0, "sm", 3/10, 0, "PGA"⟩ :
          PoeTooBig).sm_id ∧
      (⟨1/2, 0, "sm", 3/10, 0, "PGA"⟩ : PoeTooBig).imt ∈ ["PGA"] ∧
      (⟨1/2, 0, "sm", 3/10, 0, "PGA"⟩ : PoeTooBig).max_poe =
        maxPoe [[(0, [("PGA", [3/10])])]]
          (⟨1/2, 0, "sm", 3/10, 0, "PGA"⟩ : PoeTooBig).rlzi
          (⟨1/2, 0, "sm", 3/10, 0, "PGA"⟩ : PoeTooBig).imt ∧
      (⟨1/2, 0, "sm", 3/10, 0, "PGA"⟩ : PoeTooBig).poe >
        (⟨1/2, 0, "sm", 3/10, 0, "PGA"⟩ : PoeTooBig).max_poe ∧
      ∃ m ∈ [(⟨0, "sm", [[7]]⟩ : SModel)],
        m.ordinal = (⟨1/2, 0, "sm", 3/10, 0, "PGA"⟩ : PoeTooBig).sm_id ∧
        m.name = (⟨1/2, 0, "sm", 3/10, 0, "PGA"⟩ : PoeTooBig).sm_name) ∧
    ∃ ts, fullDisagg [1/10] (fun _ => [0]) ["PGA"]
      (maxPoe [[(0, [("PGA", [3/10])])]]) [⟨0, "sm", [[7]]⟩] = .ok ts :=
  ⟨(full_disagg_feasibility_gate [[(0, [("PGA", [3/10])])]] [1/2]
      (fun _ => [0]) ["PGA"] [⟨0, "sm", [[7]]⟩]).2.1
      ⟨1/2, 0, "sm", 3/10, 0, "PGA"⟩
      (by norm_num [fullDisagg, checkPoes, checkRlzs, checkImts, maxPoe,
        alookup]),
    (full_disagg_feasibility_gate [[(0, [("PGA", [3/10])])]] [1/10]
      (fun _ => [0]) ["PGA"] [⟨0, "sm", [[7]]⟩]).2.2
      (by norm_num [maxPoe, alookup])⟩

/-! ## Result Store (save_disagg_result) -/

/-- Values attachable as hdf5 attributes by save_disagg_result. -/
inductive AttrVal where
  | nat (v : ℕ)
  | rat (v : ℚ)
  | str (v : String)
  | rats (v : List ℚ)
  | strs (v : List String)
  | pair (a b : ℚ)
deriving DecidableEq, Repr

/-- Lexicographic comparison of character sequences by Unicode code
point, the order Python sorted uses on strings. -/
def lexLe : List Char → List Char → Bool
  | [], _ => true
  | _ :: _, [] => false
  | a :: as, b :: bs =>
    if a.val < b.val then true
    else if a.val = b.val then lexLe as bs else false

/-- Code-point comparison lifted to strings. -/
def strLeB (a b : String) : Bool :=
  lexLe a.data b.data

/-- Insertion into a sorted list of strings. -/
def insertSorted (a : String) : List String → List String
  | [] => [a]
  | b :: bs => if strLeB a b then a :: b :: bs else b :: insertSorted a bs

/-- The builtin sorted() on the dict keys, as used in
`for pmf in sorted(dic)`: stable sort by code-point order. -/
def sortStrs : List String → List String
  | [] => []
  | a :: as => insertSorted a (sortStrs as)

/-- The poe_agg attribute: for each PMF view name in sorted order, one
minus the product of one minus each cell of that view's array. -/
def poeAgg (dic : List (String × List ℚ)) : List ℚ :=
  (sortStrs (dic.map Prod.fst)).map fun pmf =>
    1 - (((alookup dic pmf).getD []).map (fun c => 1 - c)).prod

/-- What save_disagg_result persists for one final matrix: the display
key (the data interpolated into DISAGG_RES_FMT), the named dataset per
PMF view, and the hdf5 attributes in assignment order. -/
structure SavedResult where
  disp_key : Option ℚ × ℕ × String × ℚ × ℚ
  datasets : List (String × List ℚ)
  attrs : List (String × AttrVal)
deriving DecidableEq, Repr

/-- Embedding of save_disagg_result.  pmf_keys are the joined names of
disagg.pmf_map (external); lons and lats index the site collection;
matrix holds one flattened array of cells per PMF view.  The poe
attribute is set only when poe is not None; poe_agg recomputes the
aggregate probability of every view in sorted view-name order. -/
def saveDisaggResult (pmf_keys : List String) (lons lats : ℕ → ℚ)
    (site_id : ℕ) (bin_edges : Edges5) (trt_names : List String)
    (matrix : List (List ℚ)) (rlz_id : ℕ) (imt_str : String) (iml : ℚ)
    (poe : Option ℚ) : SavedResult :=
  { disp_key := (poe, rlz_id, imt_str, lons site_id, lats site_id)
  , datasets := pmf_keys.zip matrix
  , attrs :=
      [("rlzi", .nat rlz_id), ("imt", .str imt_str), ("iml", .rat iml),
        ("trts", .strs trt_names), ("mag_bin_edges", .rats bin_edges.mag),
        ("dist_bin_edges", .rats bin_edges.dist),
        ("lon_bin_edges", .rats bin_edges.lon),
        ("lat_bin_edges", .rats bin_edges.lat),
        ("eps_bin_edges", .rats bin_edges.eps),
        ("location", .pair (lons site_id) (lats site_id))]
      ++ (match poe with
          | some p => [("poe", .rat p)]
          | none => [])
      ++ [("poe_agg", .rats (poeAgg (pmf_keys.zip matrix)))] }

/-- C8: save_disagg_result persists one named dataset per PMF view and
attaches exactly the attributes rlzi, imt, iml, trts, the five bin-edge
sequences, the site location, poe if and only if the threshold is not
None, and poe_agg — the per-view aggregate recomputed as one minus the
product of one minus each cell, listed in sorted view-name order. -/
theorem save_disagg_result_metadata (pmf_keys : List String)
    (lons lats : ℕ → ℚ) (site_id : ℕ) (bin_edges : Edges5)
    (trt_names : List String) (matrix : List (List ℚ)) (rlz_id : ℕ)
    (imt_str : String) (iml : ℚ) (poe : Option ℚ)
    (hlen : matrix.length = pmf_keys.length) :
    ((saveDisaggResult pmf_keys lons lats site_id bin_edges trt_names
        matrix rlz_id imt_str iml poe).datasets.map Prod.fst =
      pmf_keys) ∧
    ((saveDisaggResult pmf_keys lons lats site_id bin_edges trt_names
        matrix rlz_id imt_str iml poe).attrs.map Prod.fst =
      ["rlzi", "imt", "iml", "trts", "mag_bin_edges", "dist_bin_edges",
        "lon_bin_edges", "lat_bin_edges", "eps_bin_edges", "location"]
      ++ (if poe.isSome then ["poe"] else []) ++ ["poe_agg"]) ∧
    alookup (saveDisaggResult pmf_keys lons lats site_id bin_edges
      trt_names matrix rlz_id imt_str iml poe).attrs "rlzi" =
        some (.nat rlz_id) ∧
    alookup (saveDisaggResult pmf_keys lons lats site_id bin_edges
      trt_names matrix rlz_id imt_str iml poe).attrs "imt" =
        some (.str imt_str) ∧
    alookup (saveDisaggResult pmf_keys lons lats site_id bin_edges
      trt_names matrix rlz_id imt_str iml poe).attrs "iml" =
        some (.rat iml) ∧
    alookup (saveDisaggResult pmf_keys lons lats site_id bin_edges
      trt_names matrix rlz_id imt_str iml poe).attrs "trts" =
        some (.strs trt_names) ∧
    alookup (saveDisaggResult pmf_keys lons lats site_id bin_edges
      trt_names matrix rlz_id imt_str iml poe).attrs "mag_bin_edges" =
        some (.rats bin_edges.mag) ∧
    alookup (saveDisaggResult pmf_keys lons lats site_id bin_edges
      trt_names matrix rlz_id imt_str iml poe).attrs "dist_bin_edges" =
        some (.rats bin_edges.dist) ∧
    alookup (saveDisaggResult pmf_keys lons lats site_id bin_edges
      trt_names matrix rlz_id imt_str iml poe).attrs "lon_bin_edges" =
        some (.rats bin_edges.lon) ∧
    alookup (saveDisaggResult pmf_keys lons lats site_id bin_edges
      trt_names matrix rlz_id imt_str iml poe).attrs "lat_bin_edges" =
        some (.rats bin_edges.lat) ∧
    alookup (saveDisaggResult pmf_keys lons lats site_id bin_edges
      trt_names matrix rlz_id imt_str iml poe).attrs "eps_bin_edges" =
        some (.rats bin_edges.eps) ∧
    alookup (saveDisaggResult pmf_keys lons lats site_id bin_edges
      trt_names matrix rlz_id imt_str iml poe).attrs "location" =
        some (.pair (lons site_id) (lats site_id)) ∧
    alookup (saveDisaggResult pmf_keys lons lats site_id bin_edges
      trt_names matrix rlz_id imt_str iml poe).attrs "poe" =
        Option.map AttrVal.rat poe ∧
    alookup (saveDisaggResult pmf_keys lons lats site_id bin_edges
      trt_names matrix rlz_id imt_str iml poe).attrs "poe_agg" =
        some (.rats ((sortStrs pmf_keys).map fun pmf =>
          1 - (((alookup (pmf_keys.zip matrix) pmf).getD []).map
            (fun c => 1 - c)).prod)) := by
  have hfst : (pmf_keys.zip matrix).map Prod.fst = pmf_keys :=
    List.map_fst_zip pmf_keys matrix (le_of_eq hlen.symm)
  have heq : poeAgg (pmf_keys.zip matrix) =
      (sortStrs pmf_keys).map (fun pmf =>
        1 - (((alookup (pmf_keys.zip matrix) pmf).getD []).map
          (fun c => 1 - c)).prod) := by
    rw [poeAgg, hfst]
  cases poe with
  | none =>
      exact ⟨hfst, rfl, rfl, rfl, rfl, rfl, rfl, rfl, rfl, rfl, rfl,
        rfl, rfl, congrArg (fun l => some (AttrVal.rats l)) heq⟩
  | some p =>
      exact ⟨hfst, rfl, rfl, rfl, rfl, rfl, rfl, rfl, rfl, rfl, rfl,
        rfl, rfl, congrArg (fun l => some (AttrVal.rats l)) heq⟩

/-- Witness for C8: two views with cells [1/2, 1/2] and [1/4], threshold
0.1 — the datasets carry the two view names and the poe attribute is
present. -/
theorem save_disagg_result_metadata_witness :
    ((saveDisaggResult ["Lat_Lon", "Mag"] (fun _ => 8) (fun _ => 9) 0
        ⟨[5, 6], [0, 10], [1], [2], [-3, 3]⟩ ["TRT"] [[1/2, 1/2], [1/4]]
        1 "PGA" 2 (some (1/10))).datasets.map Prod.fst =
      ["Lat_Lon", "Mag"]) ∧
    ((saveDisaggResult ["Lat_Lon", "Mag"] (fun _ => 8) (fun _ => 9) 0
        ⟨[5, 6], [0, 10], [1], [2], [-3, 3]⟩ ["TRT"] [[1/2, 1/2], [1/4]]
        1 "PGA" 2 (some (1/10))).attrs.map Prod.fst =
      ["rlzi", "imt", "iml", "trts", "mag_bin_edges", "dist_bin_edges",
        "lon_bin_edges", "lat_bin_edges", "eps_bin_edges", "location"]
      ++ (if (some ((1 : ℚ)/10)).isSome then ["poe"] else [])
      ++ ["poe_agg"]) :=
  ⟨(save_disagg_result_metadata ["Lat_Lon", "Mag"] (fun _ => 8)
      (fun _ => 9) 0 ⟨[5, 6], [0, 10], [1], [2], [-3, 3]⟩ ["TRT"]
      [[1/2, 1/2], [1/4]] 1 "PGA" 2 (some (1/10)) (by decide)).1,
    (save_disagg_result_metadata ["Lat_Lon", "Mag"] (fun _ => 8)
      (fun _ => 9) 0 ⟨[5, 6], [0, 10], [1], [2], [-3, 3]⟩ ["TRT"]
      [[1/2, 1/2], [1/4]] 1 "PGA" 2 (some (1/10)) (by decide)).2.1⟩

end OQ
